import Mathlib

/-!
Verification development for the PPC (phase-phase coupling) computation engine
of the pybispectra repository.

The embedding follows the source file `src/pybispectra/cfc/ppc.py`.  FFT
coefficients are modelled as complex numbers (`ℂ`), frequencies as rationals
(`ℚ`, the discrete frequency axis), and a matrix entry is `Option ℝ`, where
`none` stands for the IEEE-754 `NaN` produced by the code (the untouched
entries of the `np.full(..., np.nan)` result array, the `0.0/0.0` of a
zero denominator, and the NaN propagated from the infinite phase argument
arising from `f2 / f1` at `f1 = 0`).  Fallible steps (a failed frequency
lookup, a validation failure) are modelled with `Except`.
-/

/-- A single connection result matrix, indexed `[f2 position][f1 position]`,
with `none` standing for an IEEE NaN entry. -/
abbrev Mat := List (List (Option ℝ))

/-- Errors surfaced by the engine: failed index validation, a requested
frequency that is not a member of the axis (with the offending value),
a failed exact lookup inside the kernel, and a scheduled task that never
delivered a result (an artifact of the explicit schedule parameter of the
dispatcher model; it cannot occur for a covering schedule). -/
inductive Err
  | invalidIndices : Err
  | freqNotMember : ℚ → Err
  | freqNotFound : Err
  | taskMissing : Err
deriving DecidableEq

/-- Modelled from the spec: `fast_find_first` (pybispectra.utils, source not
under src/) returns the index of the first exact occurrence of `v` on the
sorted axis, and fails when no exact match exists (spec section 4.1).  On a
sorted axis the binary search of the implementation returns the first exact
occurrence, which is what this recursion computes. -/
def findFirst (axis : List ℚ) (v : ℚ) : Option ℕ :=
  match axis with
  | [] => none
  | a :: rest => if a = v then some 0 else (findFirst rest v).map (· + 1)

/-- The loop body of the Python kernel aborts the whole computation when an
exception is raised; `mapE` is the corresponding error-aborting map. -/
def mapE (f : α → Except Err β) : List α → Except Err (List β)
  | [] => .ok []
  | a :: as =>
    match f a with
    | .error e => .error e
    | .ok b =>
      match mapE f as with
      | .error e => .error e
      | .ok bs => .ok (b :: bs)

theorem mapE_ok_of {f : α → Except Err β} {g : α → β} :
    ∀ {l : List α}, (∀ a ∈ l, f a = .ok (g a)) → mapE f l = .ok (l.map g) := by
  intro l
  induction l with
  | nil => intro _; rfl
  | cons a as ih =>
    intro h
    have ha : f a = .ok (g a) := h a (by simp)
    have has : mapE f as = .ok (as.map g) := ih fun x hx => h x (by simp [hx])
    simp [mapE, ha, has]

theorem mapE_congr {f g : α → Except Err β} :
    ∀ {l : List α}, (∀ a ∈ l, f a = g a) → mapE f l = mapE g l := by
  intro l
  induction l with
  | nil => intro _; rfl
  | cons a as ih =>
    intro h
    have ha : f a = g a := h a (by simp)
    have has : mapE f as = mapE g as := ih fun x hx => h x (by simp [hx])
    simp [mapE, ha, has]

theorem mapE_ok_length {f : α → Except Err β} :
    ∀ {l : List α} {bs : List β}, mapE f l = .ok bs → bs.length = l.length := by
  intro l
  induction l with
  | nil =>
    intro bs h
    simp only [mapE] at h
    cases h
    rfl
  | cons a as ih =>
    intro bs h
    simp only [mapE] at h
    cases hfa : f a with
    | error e => rw [hfa] at h; cases h
    | ok b =>
      rw [hfa] at h
      cases hrest : mapE f as with
      | error e => rw [hrest] at h; cases h
      | ok bs2 =>
        rw [hrest] at h
        cases h
        simp [ih hrest]

theorem mapE_ok_get {f : α → Except Err β} :
    ∀ {l : List α} {bs : List β}, mapE f l = .ok bs →
      ∀ {i : ℕ} {a : α}, l.get? i = some a →
        ∃ b, bs.get? i = some b ∧ f a = .ok b := by
  intro l
  induction l with
  | nil =>
    intro bs _ i a ha
    simp at ha
  | cons x xs ih =>
    intro bs h i a ha
    simp only [mapE] at h
    cases hfx : f x with
    | error e => rw [hfx] at h; cases h
    | ok b =>
      rw [hfx] at h
      cases hrest : mapE f xs with
      | error e => rw [hrest] at h; cases h
      | ok bs2 =>
        rw [hrest] at h
        cases h
        cases i with
        | zero =>
          simp at ha
          subst ha
          exact ⟨b, by simp, hfx⟩
        | succ n =>
          simp only [List.get?] at ha ⊢
          exact ih hrest ha

/-- The angle of a complex FFT coefficient in degrees, as computed by
`np.angle(x, True)` in the kernel: the principal argument scaled by
`180 / pi`. -/
noncomputable def angleDeg (z : ℂ) : ℝ := z.arg * (180 / Real.pi)

/-- The per-epoch amplitude product `np.abs(fft_f1) * np.abs(fft_f2)` of the
kernel, for the seed coefficient at axis position `i1` and the target
coefficient at axis position `i2`. -/
noncomputable def ampProd (d : ℕ → ℕ → ℕ → ℂ) (i1 i2 : ℕ) (e : ℕ) : ℝ :=
  Complex.abs (d e 0 i1) * Complex.abs (d e 1 i2)

/-- The kernel denominator `(np.abs(fft_f1) * np.abs(fft_f2)).mean()`:
the epoch average of the amplitude products. -/
noncomputable def ppcDen (nE : ℕ) (d : ℕ → ℕ → ℕ → ℂ) (i1 i2 : ℕ) : ℝ :=
  (∑ e in Finset.range nE, ampProd d i1 i2 e) / (nE : ℝ)

/-- The kernel numerator: the magnitude of the epoch average of
`np.abs(fft_f1) * np.abs(fft_f2) * np.exp(1j * (np.angle(fft_f1, True) * (f2 / f1) - np.angle(fft_f2, True)))`. -/
noncomputable def ppcNum (nE : ℕ) (d : ℕ → ℕ → ℕ → ℂ) (i1 i2 : ℕ) (f1 f2 : ℚ) : ℝ :=
  Complex.abs
    ((∑ e in Finset.range nE,
        (ampProd d i1 i2 e : ℂ) *
          Complex.exp (Complex.I *
            ((angleDeg (d e 0 i1) * ((f2 : ℝ) / (f1 : ℝ)) - angleDeg (d e 1 i2) : ℝ) : ℂ))) /
      (nE : ℂ))

/-- The value stored at `results[f2_i, f1_i]` for a pair with `f1 < f2` whose
axis positions `i1`, `i2` were found, `numerator / denominator` in the source.
`none` models the IEEE NaN of the floating-point evaluation: when `f1 = 0`
the scale `f2 / f1` is an IEEE infinity whose NaN propagates through
`exp`, the product, the mean and the final division (also when every
amplitude is zero, since `0.0 * NaN = NaN`); when the denominator is zero
(all amplitude products zero, or zero epochs) the numerator is also zero and
the entry is the NaN of `0.0 / 0.0`. -/
noncomputable def ppcEntry (nE : ℕ) (d : ℕ → ℕ → ℕ → ℂ) (i1 i2 : ℕ) (f1 f2 : ℚ) : Option ℝ :=
  if f1 = 0 then none
  else if ppcDen nE d i1 i2 = 0 then none
  else some (ppcNum nE d i1 i2 f1 f2 / ppcDen nE d i1 i2)

/-- One iteration of the nested loop of `_compute_ppc`: entries with
`f1 < f2` look the two frequencies up on the axis (`fast_find_first`
raises when a frequency is absent, aborting the kernel) and store
`numerator / denominator`; all other entries keep the NaN of the
`np.full` initialisation. -/
noncomputable def ppcCell (nE : ℕ) (d : ℕ → ℕ → ℕ → ℂ) (freqs : List ℚ)
    (f1 f2 : ℚ) : Except Err (Option ℝ) :=
  if f1 < f2 then
    match findFirst freqs f1, findFirst freqs f2 with
    | some i1, some i2 => .ok (ppcEntry nE d i1 i2 f1 f2)
    | _, _ => .error .freqNotFound
  else .ok none

/-- The value of a cell when both lookups succeed (total form used to state
what a successfully computed kernel matrix contains). -/
noncomputable def ppcCellVal (nE : ℕ) (d : ℕ → ℕ → ℕ → ℂ) (freqs : List ℚ)
    (f1 f2 : ℚ) : Option ℝ :=
  if f1 < f2 then
    match findFirst freqs f1, findFirst freqs f2 with
    | some i1, some i2 => ppcEntry nE d i1 i2 f1 f2
    | _, _ => none
  else none

/-- The kernel `_compute_ppc` (the njit function): a `[len(f2s), len(f1s)]`
matrix over the query grids, built from an `np.full(..., np.nan)` array by
the nested loop over `f1s` and `f2s`.  The loop is embedded as a map over
rows (`f2s`) of maps over columns (`f1s`); the entries are independent, so
the matrix is the one the source loop (with `f1` outermost) fills, and a
lookup failure aborts with an error exactly when some pair with `f1 < f2`
has a frequency missing from the axis. -/
noncomputable def ppcKernel (nE : ℕ) (d : ℕ → ℕ → ℕ → ℂ) (freqs : List ℚ)
    (f1s f2s : List ℚ) : Except Err Mat :=
  mapE (fun f2 => mapE (fun f1 => ppcCell nE d freqs f1 f2) f1s) f2s

theorem ppcKernel_entry {nE : ℕ} {d : ℕ → ℕ → ℕ → ℂ} {freqs : List ℚ}
    {f1s f2s : List ℚ} {M : Mat} (hM : ppcKernel nE d freqs f1s f2s = .ok M)
    {i j : ℕ} {f1 f2 : ℚ} (hi : f2s.get? i = some f2) (hj : f1s.get? j = some f1) :
    ∃ c, (M.getD i []).getD j none = c ∧ ppcCell nE d freqs f1 f2 = .ok c := by
  obtain ⟨row, hrow, hrowok⟩ := mapE_ok_get hM hi
  obtain ⟨c, hc, hcok⟩ := mapE_ok_get hrowok hj
  refine ⟨c, ?_, hcok⟩
  simp only [List.getD_eq_get?, hrow, Option.getD_some, hc]

/-- Modelled from the spec: the parallel dispatcher (`pqdm`, source not under
src/) runs one task per connection on up to `n_jobs` workers; workers may
complete in any order, and each completed task stores its result at the
original position of its task (spec sections 4.5 and 5).  `gather` folds a
completion order (a list of task positions) into the table of delivered
results. -/
def gather (F : ℕ → Except Err Mat) (sched : List ℕ) : ℕ → Option (Except Err Mat) :=
  sched.foldl (fun g t => Function.update g t (some (F t))) (fun _ => none)

theorem gather_go (F : ℕ → Except Err Mat) :
    ∀ (sched : List ℕ) (g : ℕ → Option (Except Err Mat)) (k : ℕ),
      (sched.foldl (fun g t => Function.update g t (some (F t))) g) k =
        if k ∈ sched then some (F k) else g k := by
  intro sched
  induction sched with
  | nil => intro g k; simp
  | cons t ts ih =>
    intro g k
    simp only [List.foldl_cons, ih, List.mem_cons]
    by_cases hts : k ∈ ts
    · simp [hts]
    · by_cases hkt : k = t
      · subst hkt
        simp [hts, Function.update]
      · simp [hts, hkt, Function.update_noteq hkt]

theorem gather_eq (F : ℕ → Except Err Mat) (sched : List ℕ) (k : ℕ) :
    gather F sched k = if k ∈ sched then some (F k) else none :=
  gather_go F sched (fun _ => none) k

/-- Modelled from the spec: the aggregated output of the dispatcher collects
the delivered results in input order (by original task position, not by
completion order); a scheduled run that never delivered a result for some
task position is an aborted run. -/
def pqdmRun (F : ℕ → Except Err Mat) (n : ℕ) (sched : List ℕ) : Except Err (List Mat) :=
  mapE (fun k => (gather F sched k).getD (.error .taskMissing)) (List.range n)

/-- A covering schedule (every task position delivered, in whatever
completion order and with whatever worker count) aggregates to exactly the
sequential in-order run of the tasks. -/
theorem pqdmRun_covered {F : ℕ → Except Err Mat} {n : ℕ} {sched : List ℕ}
    (hcov : ∀ k < n, k ∈ sched) :
    pqdmRun F n sched = mapE F (List.range n) := by
  refine mapE_congr ?_
  intro k hk
  rw [gather_eq, if_pos (hcov k (List.mem_range.mp hk)), Option.getD_some]

theorem pqdmRun_ok_of_cov {F : ℕ → Except Err Mat} {G : ℕ → Mat} {n : ℕ}
    {sched : List ℕ} (hcov : ∀ k < n, k ∈ sched)
    (hF : ∀ k < n, F k = .ok (G k)) :
    pqdmRun F n sched = .ok ((List.range n).map G) := by
  rw [pqdmRun_covered hcov]
  exact mapE_ok_of fun k hk => hF k (List.mem_range.mp hk)

theorem pqdmRun_ok_get {F : ℕ → Except Err Mat} {n : ℕ} {sched : List ℕ}
    {mats : List Mat} (h : pqdmRun F n sched = .ok mats) :
    mats.length = n ∧ ∀ k < n, F k = .ok (mats.getD k []) := by
  refine ⟨by simpa using mapE_ok_length h, ?_⟩
  intro k hk
  obtain ⟨b, hb, hbok⟩ := mapE_ok_get h (List.get?_range hk)
  rw [gather_eq] at hbok
  by_cases hks : k ∈ sched
  · rw [if_pos hks, Option.getD_some] at hbok
    rw [List.getD_eq_get?, hb, Option.getD_some, ← hbok]
  · rw [if_neg hks] at hbok
    simp at hbok

/-- The result container built by `_store_results`: modelled from the spec
(the `Results` class is not under src/), it bundles the stacked coupling
array, the connection indices, the two frequency grids and the metric name
(spec section 4.6). -/
structure ResultsModel where
  coupling : List Mat
  seeds : List ℕ
  targets : List ℕ
  f2 : List ℚ
  f1 : List ℚ
  name : String

/-- The PPC process object: the immutable inputs (`data`, `freqs` and their
dimensions) together with the per-call attributes written by `compute`
(`_seeds`/`_targets`, `f1`, `f2`, `n_jobs`, the raw stacked array `_ppc`
and the stored result container `_results`). -/
structure PPCState where
  nEpochs : ℕ
  nChannels : ℕ
  data : ℕ → ℕ → ℕ → ℂ
  freqs : List ℚ
  seeds : Option (List ℕ) := none
  targets : Option (List ℕ) := none
  f1 : Option (List ℚ) := none
  f2 : Option (List ℚ) := none
  nJobs : Option ℤ := none
  ppc : Option (List Mat) := none
  results : Option ResultsModel := none

/-- `PPC._reset_attrs` (src) together with the base class part, modelled from
the spec: the reset clears the per-call input attributes and the raw `_ppc`
array; the stored result container is not cleared but replaced by
`_store_results` at the end of a successful run (spec sections 4.6 and 7). -/
def resetAttrs (s : PPCState) : PPCState :=
  { s with seeds := none, targets := none, f1 := none, f2 := none,
           nJobs := none, ppc := none }

/-- Modelled from the spec: `_sort_indices` (base class, source not under
src/) validates a provided `(seeds, targets)` pair (equal lengths, channel
indices in range) and defaults to the flattened full cross-product of all
ordered channel pairs, self-pairs included (spec section 4.2). -/
def sortIndices (nCh : ℕ) (indices : Option (List ℕ × List ℕ)) :
    Except Err (List ℕ × List ℕ) :=
  match indices with
  | none =>
    .ok ((List.range (nCh * nCh)).map (· / nCh), (List.range (nCh * nCh)).map (· % nCh))
  | some (sds, tgs) =>
    if sds.length = tgs.length ∧ (∀ i ∈ sds, i < nCh) ∧ (∀ i ∈ tgs, i < nCh) then
      .ok (sds, tgs)
    else .error .invalidIndices

/-- Modelled from the spec: the membership check of `_sort_freqs` on one
grid; a value absent from the axis fails with an error naming the offending
value (spec section 4.3). -/
def checkFreqs (freqs : List ℚ) (fs : List ℚ) : Except Err (List ℚ) :=
  match fs.find? (fun q => decide (q ∉ freqs)) with
  | some q => .error (.freqNotMember q)
  | none => .ok fs

/-- Modelled from the spec: `_sort_freqs` (base class, source not under
src/) defaults either grid to the whole frequency axis and requires every
provided value to be an exact member of the axis (spec section 4.3). -/
def sortFreqs (freqs : List ℚ) (f1 f2 : Option (List ℚ)) :
    Except Err (List ℚ × List ℚ) :=
  match checkFreqs freqs (f1.getD freqs) with
  | .error e => .error e
  | .ok f1s =>
    match checkFreqs freqs (f2.getD freqs) with
    | .error e => .error e
    | .ok f2s => .ok (f1s, f2s)

/-- The per-connection task built by `PPC._compute_ppc`: the kernel applied
to the `[epochs, 2, frequencies]` slice `self.data[:, (seed, target)]` of the
FFT tensor, with the shared axis and grids. -/
noncomputable def ppcConn (nE : ℕ) (dat : ℕ → ℕ → ℕ → ℂ) (freqs : List ℚ)
    (seed target : ℕ) (f1s f2s : List ℚ) : Except Err Mat :=
  ppcKernel nE (fun e c i => dat e (if c = 0 then seed else target) i) freqs f1s f2s

/-- `PPC.compute`, parameterised by the per-connection kernel `kern` (the
parameter makes the fail-fast property expressible: a run that fails
validation is the same for every kernel).  The steps follow the source:
`_reset_attrs`, then `_sort_indices`, `_sort_freqs` and
`_sort_parallelisation` (validation), then the parallel dispatch of
`_compute_ppc` and `_store_results`.  A raised error leaves the attributes
written so far in place, as an exception does in the source. -/
def computeWith
    (kern : ℕ → (ℕ → ℕ → ℕ → ℂ) → List ℚ → ℕ → ℕ → List ℚ → List ℚ → Except Err Mat)
    (s : PPCState) (indices : Option (List ℕ × List ℕ)) (f1 f2 : Option (List ℚ))
    (nJobs : ℤ) (sched : List ℕ) : Except Err Unit × PPCState :=
  let s0 := resetAttrs s
  match sortIndices s0.nChannels indices with
  | .error e => (.error e, s0)
  | .ok (sds, tgs) =>
    let s1 := { s0 with seeds := some sds, targets := some tgs }
    match sortFreqs s1.freqs f1 f2 with
    | .error e => (.error e, s1)
    | .ok (f1s, f2s) =>
      let s2 := { s1 with f1 := some f1s, f2 := some f2s, nJobs := some nJobs }
      match pqdmRun
          (fun k => kern s2.nEpochs s2.data s2.freqs (sds.getD k 0) (tgs.getD k 0) f1s f2s)
          sds.length sched with
      | .error e => (.error e, s2)
      | .ok mats =>
        (.ok (), { s2 with ppc := some mats,
                           results := some ⟨mats, sds, tgs, f2s, f1s, "PPC"⟩ })

/-- `PPC.compute` with the real per-connection PPC kernel. -/
noncomputable def compute (s : PPCState) (indices : Option (List ℕ × List ℕ))
    (f1 f2 : Option (List ℚ)) (nJobs : ℤ) (sched : List ℕ) :
    Except Err Unit × PPCState :=
  computeWith ppcConn s indices f1 f2 nJobs sched

/-- The number of per-connection tasks a call will dispatch (the length of
the normalised seed list). -/
def numTasks (s : PPCState) (indices : Option (List ℕ × List ℕ)) : ℕ :=
  match sortIndices s.nChannels indices with
  | .ok (sds, _) => sds.length
  | .error _ => 0

theorem checkFreqs_ok_of {freqs fs : List ℚ} (h : ∀ q ∈ fs, q ∈ freqs) :
    checkFreqs freqs fs = .ok fs := by
  have : fs.find? (fun q => decide (q ∉ freqs)) = none := by
    apply List.find?_eq_none.mpr
    intro q hq
    simpa using h q hq
  unfold checkFreqs
  rw [this]

theorem checkFreqs_ok_inv {freqs fs fs' : List ℚ} (h : checkFreqs freqs fs = .ok fs') :
    fs' = fs ∧ ∀ q ∈ fs, q ∈ freqs := by
  unfold checkFreqs at h
  cases hf : fs.find? (fun q => decide (q ∉ freqs)) with
  | some q => rw [hf] at h; cases h
  | none =>
    rw [hf] at h
    cases h
    refine ⟨rfl, ?_⟩
    intro q hq
    have := List.find?_eq_none.mp hf q hq
    simpa using this

theorem checkFreqs_error_of {freqs fs : List ℚ} {q : ℚ} (hq : q ∈ fs)
    (hnm : q ∉ freqs) : ∃ v, checkFreqs freqs fs = .error (.freqNotMember v) := by
  have : (fs.find? (fun q => decide (q ∉ freqs))).isSome := by
    rw [List.find?_isSome]
    exact ⟨q, hq, by simpa using hnm⟩
  cases hf : fs.find? (fun q => decide (q ∉ freqs)) with
  | none => rw [hf] at this; simp at this
  | some v => exact ⟨v, by unfold checkFreqs; rw [hf]⟩

theorem sortFreqs_ok_inv {freqs : List ℚ} {f1 f2 : Option (List ℚ)}
    {f1s f2s : List ℚ} (h : sortFreqs freqs f1 f2 = .ok (f1s, f2s)) :
    f1s = f1.getD freqs ∧ f2s = f2.getD freqs ∧
      (∀ q ∈ f1s, q ∈ freqs) ∧ (∀ q ∈ f2s, q ∈ freqs) := by
  unfold sortFreqs at h
  cases h1 : checkFreqs freqs (f1.getD freqs) with
  | error e => rw [h1] at h; cases h
  | ok g1 =>
    rw [h1] at h
    cases h2 : checkFreqs freqs (f2.getD freqs) with
    | error e => rw [h2] at h; cases h
    | ok g2 =>
      rw [h2] at h
      cases h
      obtain ⟨e1, m1⟩ := checkFreqs_ok_inv h1
      obtain ⟨e2, m2⟩ := checkFreqs_ok_inv h2
      exact ⟨e1, e2, e1 ▸ m1, e2 ▸ m2⟩

theorem sortFreqs_ok_of {freqs : List ℚ} {f1 f2 : Option (List ℚ)}
    (h1 : ∀ q ∈ f1.getD freqs, q ∈ freqs) (h2 : ∀ q ∈ f2.getD freqs, q ∈ freqs) :
    sortFreqs freqs f1 f2 = .ok (f1.getD freqs, f2.getD freqs) := by
  unfold sortFreqs
  rw [checkFreqs_ok_of h1, checkFreqs_ok_of h2]

theorem sortIndices_none (nCh : ℕ) :
    sortIndices nCh none =
      .ok ((List.range (nCh * nCh)).map (· / nCh),
           (List.range (nCh * nCh)).map (· % nCh)) := rfl

/-- Any raising run of `compute` (with any kernel) leaves the previously
stored result container untouched: `_results` is only written by
`_store_results`, after validation and dispatch both succeeded. -/
theorem computeWith_error_results
    {kern : ℕ → (ℕ → ℕ → ℕ → ℂ) → List ℚ → ℕ → ℕ → List ℚ → List ℚ → Except Err Mat}
    {s : PPCState} {indices : Option (List ℕ × List ℕ)} {f1 f2 : Option (List ℚ)}
    {nJobs : ℤ} {sched : List ℕ} {e : Err} {s' : PPCState}
    (h : computeWith kern s indices f1 f2 nJobs sched = (.error e, s')) :
    s'.results = s.results := by
  simp only [computeWith] at h
  split at h
  · cases h; rfl
  · split at h
    · cases h; rfl
    · split at h
      · cases h; rfl
      · cases h

/-- Inversion of a run of `compute` whose final state carries a raw `_ppc`
array: such a run passed both validations and the dispatch, and stored a
fresh result container made from the dispatched matrices. -/
theorem computeWith_ppc_some
    {kern : ℕ → (ℕ → ℕ → ℕ → ℂ) → List ℚ → ℕ → ℕ → List ℚ → List ℚ → Except Err Mat}
    {s : PPCState} {indices : Option (List ℕ × List ℕ)} {f1 f2 : Option (List ℚ)}
    {nJobs : ℤ} {sched : List ℕ} {r : Except Err Unit} {s' : PPCState}
    {mats : List Mat}
    (h : computeWith kern s indices f1 f2 nJobs sched = (r, s'))
    (hppc : s'.ppc = some mats) :
    ∃ sds tgs f1s f2s,
      sortIndices s.nChannels indices = .ok (sds, tgs) ∧
      sortFreqs s.freqs f1 f2 = .ok (f1s, f2s) ∧
      pqdmRun
        (fun k => kern s.nEpochs s.data s.freqs (sds.getD k 0) (tgs.getD k 0) f1s f2s)
        sds.length sched = .ok mats ∧
      r = .ok () ∧ s'.seeds = some sds ∧ s'.targets = some tgs ∧
      s'.f1 = some f1s ∧ s'.f2 = some f2s ∧
      s'.results = some ⟨mats, sds, tgs, f2s, f1s, "PPC"⟩ := by
  simp only [computeWith] at h
  split at h
  · cases h
    cases hppc
  · rename_i sds tgs heqsi
    split at h
    · cases h
      cases hppc
    · rename_i f1s f2s heqsf
      split at h
      · cases h
        cases hppc
      · rename_i mats2 heqrun
        cases h
        simp only at hppc
        cases hppc
        exact ⟨sds, tgs, f1s, f2s, heqsi, heqsf, heqrun, rfl, rfl, rfl, rfl, rfl, rfl⟩

/-- Construction of a successful run of `compute` from successful
validation and dispatch. -/
theorem computeWith_ok_build
    {kern : ℕ → (ℕ → ℕ → ℕ → ℂ) → List ℚ → ℕ → ℕ → List ℚ → List ℚ → Except Err Mat}
    {s : PPCState} {indices : Option (List ℕ × List ℕ)} {f1 f2 : Option (List ℚ)}
    {nJobs : ℤ} {sched : List ℕ} {sds tgs : List ℕ} {f1s f2s : List ℚ}
    {mats : List Mat}
    (hsi : sortIndices s.nChannels indices = .ok (sds, tgs))
    (hsf : sortFreqs s.freqs f1 f2 = .ok (f1s, f2s))
    (hrun : pqdmRun
        (fun k => kern s.nEpochs s.data s.freqs (sds.getD k 0) (tgs.getD k 0) f1s f2s)
        sds.length sched = .ok mats) :
    computeWith kern s indices f1 f2 nJobs sched =
      (.ok (), { s with seeds := some sds, targets := some tgs,
                        f1 := some f1s, f2 := some f2s, nJobs := some nJobs,
                        ppc := some mats,
                        results := some ⟨mats, sds, tgs, f2s, f1s, "PPC"⟩ }) := by
  simp only [computeWith, resetAttrs]
  rw [hsi]
  dsimp only
  rw [hsf]
  dsimp only
  rw [hrun]

theorem ppcCell_skip {nE : ℕ} {d : ℕ → ℕ → ℕ → ℂ} {freqs : List ℚ} {f1 f2 : ℚ}
    (hge : f2 ≤ f1) : ppcCell nE d freqs f1 f2 = .ok none := by
  simp [ppcCell, not_lt.mpr hge]

theorem ppcCellVal_skip {nE : ℕ} {d : ℕ → ℕ → ℕ → ℂ} {freqs : List ℚ} {f1 f2 : ℚ}
    (hge : f2 ≤ f1) : ppcCellVal nE d freqs f1 f2 = none := by
  simp [ppcCellVal, not_lt.mpr hge]

/-- Every skipped pair of a successfully computed kernel matrix holds NaN. -/
theorem ppcKernel_ok_skip {nE : ℕ} {d : ℕ → ℕ → ℕ → ℂ} {freqs f1s f2s : List ℚ}
    {M : Mat} (hM : ppcKernel nE d freqs f1s f2s = .ok M)
    {i j : ℕ} {f1 f2 : ℚ} (hi : f2s.get? i = some f2) (hj : f1s.get? j = some f1)
    (hge : f2 ≤ f1) : (M.getD i []).getD j none = none := by
  obtain ⟨c, hcEq, hcOk⟩ := ppcKernel_entry hM hi hj
  rw [ppcCell_skip hge] at hcOk
  cases hcOk
  exact hcEq

/-- A tiny concrete process object used by the closed instantiations below:
one epoch, one channel, all FFT coefficients zero, frequency axis `[1]`. -/
def sOne : PPCState := { nEpochs := 1, nChannels := 1, data := fun _ _ _ => 0, freqs := [1] }

/-- The final state of a default `compute` run on `sOne`: one connection
`(0, 0)`, both grids `[1]`, and a single `1 x 1` matrix whose only entry is
the NaN of the skipped pair `f1 = f2 = 1`. -/
def sOneDone : PPCState :=
  { sOne with
      seeds := some [0], targets := some [0], f1 := some [1], f2 := some [1],
      nJobs := some 1, ppc := some [[[none]]],
      results := some ⟨[[[none]]], [0], [0], [1], [1], "PPC"⟩ }

/-- C2: for every connection, every dataset and every query pair with
`f1s[j] >= f2s[i]`, the kernel output entry at row `i`, column `j` is NaN
(`none`), and so is the `[k, i, j]` entry of the stacked coupling array of
any `compute` run whose grids are `f1s`, `f2s`, for every connection `k`. -/
theorem claim_C2
    (f1s f2s : List ℚ) (i j : ℕ) (f1 f2 : ℚ)
    (hi : f2s.get? i = some f2) (hj : f1s.get? j = some f1) (hge : f2 ≤ f1)
    (nE : ℕ) (d : ℕ → ℕ → ℕ → ℂ) (freqs : List ℚ) (M : Mat)
    (hM : ppcKernel nE d freqs f1s f2s = .ok M)
    (s : PPCState) (ind : Option (List ℕ × List ℕ)) (f1o f2o : Option (List ℚ))
    (nj : ℤ) (sched : List ℕ) (r : Except Err Unit) (s' : PPCState)
    (mats : List Mat) (k : ℕ)
    (hc : compute s ind f1o f2o nj sched = (r, s'))
    (hppc : s'.ppc = some mats) (hf1 : s'.f1 = some f1s) (hf2 : s'.f2 = some f2s)
    (hk : k < mats.length) :
    (M.getD i []).getD j none = none ∧
      ((mats.getD k []).getD i []).getD j none = none := by
  refine ⟨ppcKernel_ok_skip hM hi hj hge, ?_⟩
  obtain ⟨sds, tgs, g1s, g2s, hsi, hsf, hrun, hr, hseeds, htargets, hg1, hg2, hres⟩ :=
    computeWith_ppc_some hc hppc
  rw [hf1] at hg1
  rw [hf2] at hg2
  cases hg1
  cases hg2
  obtain ⟨hlen, htask⟩ := pqdmRun_ok_get hrun
  have hkOk := htask k (hlen ▸ hk)
  exact ppcKernel_ok_skip hkOk hi hj hge

/-- Closed instantiation of C2: grids `[1]`, `[1]`, pair `f1 = f2 = 1`, the
kernel matrix of the all-zero one-epoch dataset, and a full `compute` run on
`sOne`. -/
theorem claim_C2_witness :
    ((([[none]] : Mat).getD 0 []).getD 0 none = none) ∧
      ((((([[[none]]] : List Mat)).getD 0 []).getD 0 []).getD 0 none = none) :=
  claim_C2 [1] [1] 0 0 1 1 rfl rfl (by decide) 1 (fun _ _ _ => 0) [1] [[none]] rfl
    sOne none none none 1 [0] (.ok ()) sOneDone [[[none]]] 0 rfl rfl rfl rfl
    (by decide)

/-- The per-connection data slice `self.data[:, (seed, target)]` of
`PPC._compute_ppc`: channel `0` of the slice is the seed channel, channel
`1` the target channel. -/
def connData (dat : ℕ → ℕ → ℕ → ℂ) (seed target : ℕ) : ℕ → ℕ → ℕ → ℂ :=
  fun e c i => dat e (if c = 0 then seed else target) i

theorem ppcConn_eq (nE : ℕ) (dat : ℕ → ℕ → ℕ → ℂ) (freqs : List ℚ)
    (seed target : ℕ) (f1s f2s : List ℚ) :
    ppcConn nE dat freqs seed target f1s f2s =
      ppcKernel nE (connData dat seed target) freqs f1s f2s := rfl

/-- A process object holding the result of a previous successful `compute`
call (both the raw `_ppc` array and the stored result container). -/
def sPrev : PPCState :=
  { sOne with ppc := some [[[none]]],
              results := some ⟨[[[none]]], [0], [0], [1], [1], "PPC"⟩ }

/-- The state `sPrev` is left in by a `compute` call that fails frequency
validation: `_reset_attrs` already cleared `_ppc` (before validation) and
`_sort_indices` already stored the default connection indices, while the
stored result container survives. -/
def sPrevFailed : PPCState :=
  { sPrev with seeds := some [0], targets := some [0], ppc := none }

/-- C4 counterexample: on the concrete object `sPrev`, which holds the raw
result array of a previous successful run, a `compute` call that fails
validation of `f1` (the value `7` is not on the axis `[1]`) nevertheless
clears the internal raw result state `_ppc`: the reset happens at the start
of `compute`, before validation, contradicting the claim that the internal
result state is reset only after validation completes successfully. -/
theorem claim_C4_counterexample :
    sPrev.ppc = some [[[none]]] ∧
    (compute sPrev none (some [7]) none 1 []).1 = .error (.freqNotMember 7) ∧
    (compute sPrev none (some [7]) none 1 []).2.ppc = none :=
  ⟨rfl, rfl, rfl⟩

/-- C4 (amended): a `compute` call that raises (with any kernel, any inputs)
leaves the previously stored result container `_results` untouched, because
`_results` is only replaced by `_store_results` after validation and
dispatch both succeed; however the raw intermediate result state `_ppc` is
cleared by `_reset_attrs` at the start of the call, before validation, so a
failed call always leaves `_ppc` empty. -/
theorem claim_C4
    {kern : ℕ → (ℕ → ℕ → ℕ → ℂ) → List ℚ → ℕ → ℕ → List ℚ → List ℚ → Except Err Mat}
    {s : PPCState} {indices : Option (List ℕ × List ℕ)} {f1 f2 : Option (List ℚ)}
    {nJobs : ℤ} {sched : List ℕ} {e : Err} {s' : PPCState}
    (h : computeWith kern s indices f1 f2 nJobs sched = (.error e, s')) :
    s'.results = s.results ∧ s'.ppc = none := by
  simp only [computeWith] at h
  split at h
  · cases h; exact ⟨rfl, rfl⟩
  · split at h
    · cases h; exact ⟨rfl, rfl⟩
    · split at h
      · cases h; exact ⟨rfl, rfl⟩
      · cases h

/-- Closed instantiation of the amended C4: the failing run on `sPrev`
keeps the stored result container and leaves `_ppc` cleared. -/
theorem claim_C4_witness : sPrevFailed.results = sPrev.results ∧ sPrevFailed.ppc = none :=
  @claim_C4 ppcConn sPrev none (some [7]) none 1 [] (.freqNotMember 7) sPrevFailed rfl

theorem sortFreqs_error_f1 {freqs f1v : List ℚ} {f2o : Option (List ℚ)}
    (hq : ∃ q ∈ f1v, q ∉ freqs) :
    ∃ v, sortFreqs freqs (some f1v) f2o = .error (.freqNotMember v) := by
  obtain ⟨q, hqm, hqn⟩ := hq
  obtain ⟨v, hv⟩ := checkFreqs_error_of hqm hqn
  refine ⟨v, ?_⟩
  unfold sortFreqs
  rw [show (some f1v).getD freqs = f1v from rfl, hv]

/-- C5: a `compute` call whose `f1` contains a value that is not an exact
member of the frequency axis raises a validation error, and the
per-connection kernel is never invoked: the whole run (result and final
state) is identical for any two kernels. -/
theorem claim_C5
    (s : PPCState) (ind : Option (List ℕ × List ℕ)) (f1v : List ℚ)
    (f2o : Option (List ℚ)) (nj : ℤ) (sched : List ℕ)
    (K Kp : ℕ → (ℕ → ℕ → ℕ → ℂ) → List ℚ → ℕ → ℕ → List ℚ → List ℚ → Except Err Mat)
    (hq : ∃ q ∈ f1v, q ∉ s.freqs) :
    computeWith K s ind (some f1v) f2o nj sched =
      computeWith Kp s ind (some f1v) f2o nj sched ∧
    ∃ e, (computeWith K s ind (some f1v) f2o nj sched).1 = .error e := by
  obtain ⟨v, hsf⟩ := @sortFreqs_error_f1 s.freqs f1v f2o hq
  cases hsi : sortIndices s.nChannels ind with
  | error e =>
    have hrun : ∀ kern, computeWith kern s ind (some f1v) f2o nj sched =
        (.error e, resetAttrs s) := by
      intro kern
      simp only [computeWith, resetAttrs]
      rw [hsi]
    exact ⟨(hrun K).trans (hrun Kp).symm, e, by rw [hrun K]⟩
  | ok st =>
    obtain ⟨sds, tgs⟩ := st
    have hrun : ∀ kern, computeWith kern s ind (some f1v) f2o nj sched =
        (.error (.freqNotMember v),
          { resetAttrs s with seeds := some sds, targets := some tgs }) := by
      intro kern
      simp only [computeWith, resetAttrs]
      rw [hsi]
      dsimp only
      rw [hsf]
    exact ⟨(hrun K).trans (hrun Kp).symm, .freqNotMember v, by rw [hrun K]⟩

/-- A process object over the five-point axis `[1, 2, 3, 4, 5]`. -/
def sFive : PPCState :=
  { nEpochs := 1, nChannels := 1, data := fun _ _ _ => 0, freqs := [1, 2, 3, 4, 5] }

/-- Closed instantiation of C5: `f1 = [5/2]` on the axis `[1, 2, 3, 4, 5]`,
with the real PPC kernel against a kernel that always fails. -/
theorem claim_C5_witness :
    computeWith ppcConn sFive none (some [5 / 2]) none 1 [] =
      computeWith (fun _ _ _ _ _ _ _ => .error .taskMissing) sFive none
        (some [5 / 2]) none 1 [] ∧
    ∃ e, (computeWith ppcConn sFive none (some [5 / 2]) none 1 []).1 = .error e :=
  claim_C5 sFive none [5 / 2] none 1 []
    ppcConn (fun _ _ _ _ _ _ _ => .error .taskMissing)
    ⟨5 / 2, by norm_num, by show (5 / 2 : ℚ) ∉ [1, 2, 3, 4, 5]; norm_num⟩

theorem computeWith_error_si
    {kern : ℕ → (ℕ → ℕ → ℕ → ℂ) → List ℚ → ℕ → ℕ → List ℚ → List ℚ → Except Err Mat}
    {s : PPCState} {ind : Option (List ℕ × List ℕ)} {f1o f2o : Option (List ℚ)}
    {nj : ℤ} {sched : List ℕ} {e : Err}
    (hsi : sortIndices s.nChannels ind = .error e) :
    computeWith kern s ind f1o f2o nj sched = (.error e, resetAttrs s) := by
  simp only [computeWith, resetAttrs]
  rw [hsi]

theorem computeWith_error_sf
    {kern : ℕ → (ℕ → ℕ → ℕ → ℂ) → List ℚ → ℕ → ℕ → List ℚ → List ℚ → Except Err Mat}
    {s : PPCState} {ind : Option (List ℕ × List ℕ)} {f1o f2o : Option (List ℚ)}
    {nj : ℤ} {sched : List ℕ} {sds tgs : List ℕ} {e : Err}
    (hsi : sortIndices s.nChannels ind = .ok (sds, tgs))
    (hsf : sortFreqs s.freqs f1o f2o = .error e) :
    computeWith kern s ind f1o f2o nj sched =
      (.error e, { resetAttrs s with seeds := some sds, targets := some tgs }) := by
  simp only [computeWith, resetAttrs]
  rw [hsi]
  dsimp only
  rw [hsf]

theorem computeWith_error_run
    {kern : ℕ → (ℕ → ℕ → ℕ → ℂ) → List ℚ → ℕ → ℕ → List ℚ → List ℚ → Except Err Mat}
    {s : PPCState} {ind : Option (List ℕ × List ℕ)} {f1o f2o : Option (List ℚ)}
    {nj : ℤ} {sched : List ℕ} {sds tgs : List ℕ} {f1s f2s : List ℚ} {e : Err}
    (hsi : sortIndices s.nChannels ind = .ok (sds, tgs))
    (hsf : sortFreqs s.freqs f1o f2o = .ok (f1s, f2s))
    (hrun : pqdmRun
        (fun k => kern s.nEpochs s.data s.freqs (sds.getD k 0) (tgs.getD k 0) f1s f2s)
        sds.length sched = .error e) :
    computeWith kern s ind f1o f2o nj sched =
      (.error e, { resetAttrs s with seeds := some sds, targets := some tgs,
                                     f1 := some f1s, f2 := some f2s,
                                     nJobs := some nj }) := by
  simp only [computeWith, resetAttrs] at hrun ⊢
  rw [hsi]
  dsimp only
  rw [hsf]
  dsimp only
  rw [hrun]

/-- C6: for any two covering schedules (any worker completion orders, any
worker counts), `compute` returns the same outcome, the same stacked raw
array and the same stored result container; and entry `k` of the stacked
array is exactly the kernel output for the `k`-th (seed, target) pair of
the normalised connection set. -/
theorem claim_C6
    (s : PPCState) (ind : Option (List ℕ × List ℕ)) (f1o f2o : Option (List ℚ))
    (nj njp : ℤ) (sched schedp : List ℕ)
    (hcov : ∀ k < numTasks s ind, k ∈ sched)
    (hcovp : ∀ k < numTasks s ind, k ∈ schedp)
    (mats : List Mat) (sds tgs : List ℕ) (f1s f2s : List ℚ) (k : ℕ)
    (hppc : (compute s ind f1o f2o nj sched).2.ppc = some mats)
    (hseeds : (compute s ind f1o f2o nj sched).2.seeds = some sds)
    (htgts : (compute s ind f1o f2o nj sched).2.targets = some tgs)
    (hg1 : (compute s ind f1o f2o nj sched).2.f1 = some f1s)
    (hg2 : (compute s ind f1o f2o nj sched).2.f2 = some f2s)
    (hk : k < mats.length) :
    (compute s ind f1o f2o nj sched).1 = (compute s ind f1o f2o njp schedp).1 ∧
    (compute s ind f1o f2o nj sched).2.ppc =
      (compute s ind f1o f2o njp schedp).2.ppc ∧
    (compute s ind f1o f2o nj sched).2.results =
      (compute s ind f1o f2o njp schedp).2.results ∧
    ppcConn s.nEpochs s.data s.freqs (sds.getD k 0) (tgs.getD k 0) f1s f2s =
      .ok (mats.getD k []) := by
  have hc : compute s ind f1o f2o nj sched =
      ((compute s ind f1o f2o nj sched).1, (compute s ind f1o f2o nj sched).2) := rfl
  obtain ⟨sds0, tgs0, f1s0, f2s0, hsi, hsf, hrun, hr, hs0, ht0, hf10, hf20, hres0⟩ :=
    computeWith_ppc_some hc hppc
  rw [hseeds] at hs0
  rw [htgts] at ht0
  rw [hg1] at hf10
  rw [hg2] at hf20
  cases hs0
  cases ht0
  cases hf10
  cases hf20
  have hnum : numTasks s ind = sds.length := by
    unfold numTasks
    rw [hsi]
  rw [hnum] at hcov hcovp
  have hlen := (pqdmRun_ok_get hrun).1
  have htask := (pqdmRun_ok_get hrun).2 k (hlen ▸ hk)
  have hrunp : pqdmRun
      (fun c => ppcConn s.nEpochs s.data s.freqs (sds.getD c 0) (tgs.getD c 0) f1s f2s)
      sds.length schedp = .ok mats := by
    rw [pqdmRun_covered hcovp]
    rw [pqdmRun_covered hcov] at hrun
    exact hrun
  have hA := @computeWith_ok_build ppcConn s ind f1o f2o nj sched sds tgs f1s f2s mats
    hsi hsf hrun
  have hB := @computeWith_ok_build ppcConn s ind f1o f2o njp schedp sds tgs f1s f2s mats
    hsi hsf hrunp
  refine ⟨?_, ?_, ?_, htask⟩
  · rw [show compute s ind f1o f2o nj sched = computeWith ppcConn s ind f1o f2o nj sched
      from rfl, hA,
      show compute s ind f1o f2o njp schedp = computeWith ppcConn s ind f1o f2o njp schedp
      from rfl, hB]
  · rw [show compute s ind f1o f2o nj sched = computeWith ppcConn s ind f1o f2o nj sched
      from rfl, hA,
      show compute s ind f1o f2o njp schedp = computeWith ppcConn s ind f1o f2o njp schedp
      from rfl, hB]
  · rw [show compute s ind f1o f2o nj sched = computeWith ppcConn s ind f1o f2o nj sched
      from rfl, hA,
      show compute s ind f1o f2o njp schedp = computeWith ppcConn s ind f1o f2o njp schedp
      from rfl, hB]

/-- Closed instantiation of C6: the default run on `sOne` with one worker
and schedule `[0]` against two workers and schedule `[0, 0]`. -/
theorem claim_C6_witness :
    (compute sOne none none none 1 [0]).1 = (compute sOne none none none 2 [0, 0]).1 ∧
    (compute sOne none none none 1 [0]).2.ppc =
      (compute sOne none none none 2 [0, 0]).2.ppc ∧
    (compute sOne none none none 1 [0]).2.results =
      (compute sOne none none none 2 [0, 0]).2.results ∧
    ppcConn 1 (fun _ _ _ => 0) [1] (([0] : List ℕ).getD 0 0) (([0] : List ℕ).getD 0 0)
      [1] [1] = .ok (([[[none]]] : List Mat).getD 0 []) :=
  claim_C6 sOne none none none 1 2 [0] [0, 0] (by decide) (by decide)
    [[[none]]] [0] [0] [1] [1] 0 rfl rfl rfl rfl rfl (by decide)

/-- C10: with an empty `f1s` grid the kernel returns, without raising, the
`[len(f2s), 0]` matrix of empty rows, and with an empty `f2s` grid the
empty `[0, len(f1s)]` matrix; a `compute` call with an explicitly empty
`f1` succeeds, storing a result whose `f1` dimension is empty, and a
`compute` call with an explicitly empty `f2` succeeds, storing a result
whose `f2` dimension is empty (every stacked matrix has zero rows). -/
theorem claim_C10
    (nE : ℕ) (d : ℕ → ℕ → ℕ → ℂ) (freqs f1s f2s : List ℚ)
    (s : PPCState) (nj : ℤ) (sched : List ℕ)
    (hcov : ∀ k < s.nChannels * s.nChannels, k ∈ sched) :
    ppcKernel nE d freqs [] f2s = .ok (f2s.map fun _ => []) ∧
    ppcKernel nE d freqs f1s [] = .ok [] ∧
    (∃ s' res, compute s none (some []) none nj sched = (.ok (), s') ∧
      s'.results = some res ∧ res.f1 = [] ∧
      res.coupling.length = s.nChannels * s.nChannels ∧
      ∀ M ∈ res.coupling, M.length = s.freqs.length ∧ ∀ row ∈ M, row = []) ∧
    ∃ s2 res2, compute s none none (some []) nj sched = (.ok (), s2) ∧
      s2.results = some res2 ∧ res2.f2 = [] ∧
      res2.coupling.length = s.nChannels * s.nChannels ∧
      ∀ M ∈ res2.coupling, M = [] := by
  refine ⟨mapE_ok_of fun _ _ => rfl, rfl, ?_, ?_⟩
  have hsf : sortFreqs s.freqs (some []) none = .ok ([], s.freqs) :=
    sortFreqs_ok_of (fun q h => absurd h (List.not_mem_nil q)) (fun _ h => h)
  have hlen : ((List.range (s.nChannels * s.nChannels)).map
      (· / s.nChannels)).length = s.nChannels * s.nChannels := by simp
  have hdisp : pqdmRun
      (fun c => ppcConn s.nEpochs s.data s.freqs
        (((List.range (s.nChannels * s.nChannels)).map (· / s.nChannels)).getD c 0)
        (((List.range (s.nChannels * s.nChannels)).map (· % s.nChannels)).getD c 0)
        [] s.freqs)
      ((List.range (s.nChannels * s.nChannels)).map (· / s.nChannels)).length sched =
      .ok ((List.range ((List.range (s.nChannels * s.nChannels)).map
          (· / s.nChannels)).length).map fun _ =>
        s.freqs.map fun _ => ([] : List (Option ℝ))) := by
    refine pqdmRun_ok_of_cov (fun k hk => hcov k (hlen ▸ hk)) ?_
    intro c _
    rw [ppcConn_eq]
    exact mapE_ok_of fun _ _ => rfl
  · refine ⟨_, _, computeWith_ok_build (sortIndices_none s.nChannels) hsf hdisp,
      rfl, rfl, by simp, ?_⟩
    intro M hM
    obtain ⟨c, -, rfl⟩ := List.mem_map.mp hM
    refine ⟨by simp, ?_⟩
    intro row hrow
    obtain ⟨g2, -, rfl⟩ := List.mem_map.mp hrow
    rfl
  · have hsf2 : sortFreqs s.freqs none (some []) = .ok (s.freqs, []) :=
      sortFreqs_ok_of (fun _ h => h) (fun q h => absurd h (List.not_mem_nil q))
    have hlen : ((List.range (s.nChannels * s.nChannels)).map
        (· / s.nChannels)).length = s.nChannels * s.nChannels := by simp
    have hdisp2 : pqdmRun
        (fun c => ppcConn s.nEpochs s.data s.freqs
          (((List.range (s.nChannels * s.nChannels)).map (· / s.nChannels)).getD c 0)
          (((List.range (s.nChannels * s.nChannels)).map (· % s.nChannels)).getD c 0)
          s.freqs [])
        ((List.range (s.nChannels * s.nChannels)).map (· / s.nChannels)).length sched =
        .ok ((List.range ((List.range (s.nChannels * s.nChannels)).map
            (· / s.nChannels)).length).map fun _ => ([] : Mat)) := by
      refine pqdmRun_ok_of_cov (fun k hk => hcov k (hlen ▸ hk)) ?_
      intro c _
      rw [ppcConn_eq]
      rfl
    refine ⟨_, _, computeWith_ok_build (sortIndices_none s.nChannels) hsf2 hdisp2,
      rfl, rfl, by simp, ?_⟩
    intro M hM
    obtain ⟨c, -, rfl⟩ := List.mem_map.mp hM
    rfl

/-- Closed instantiation of C10: axis `[1]`, one epoch, all-zero data, with
both the empty-`f1` and the empty-`f2` `compute` runs. -/
theorem claim_C10_witness :
    ppcKernel 1 (fun _ _ _ => 0) [1] [] [1] = .ok ([(1 : ℚ)].map fun _ => []) ∧
    ppcKernel 1 (fun _ _ _ => 0) [1] [1] [] = .ok [] ∧
    (∃ s' res, compute sOne none (some []) none 1 [0] = (.ok (), s') ∧
      s'.results = some res ∧ res.f1 = [] ∧
      res.coupling.length = 1 ∧
      ∀ M ∈ res.coupling, M.length = 1 ∧ ∀ row ∈ M, row = []) ∧
    ∃ s2 res2, compute sOne none none (some []) 1 [0] = (.ok (), s2) ∧
      s2.results = some res2 ∧ res2.f2 = [] ∧
      res2.coupling.length = 1 ∧
      ∀ M ∈ res2.coupling, M = [] :=
  claim_C10 1 (fun _ _ _ => 0) [1] [1] [1] sOne 1 [0] (by decide)
